import Mathlib

/-!
# Verification of the CDP HAR-capture pipeline

A shallow embedding of `main.go`: the event classifier (`processRequest`,
`processResponse`), the header normalizer (`headersToHAR`), the channel-based
capture aggregator (the `for data := range harCh` drain loop together with the
`chromedp.ListenTarget` callback and Go channel semantics), and the session
controller's sequential control flow, plus a model of the HAR 1.2 JSON
artifact format from the specification.
-/

/-- Resource type of a CDP network event (`network.ResourceType`).
The Go type is a string enum; only `Document` vs everything else matters to
the classifier, but we keep several representative constructors. -/
inductive ResourceType where
  | document
  | stylesheet
  | image
  | script
  | xhr
  | font
  | media
  | other
deriving DecidableEq, Repr

/-- A dynamically typed Go value as it appears in `network.Headers`
(`map[string]interface{}`): either a `[]string` or some scalar
(string, number, boolean). -/
inductive GoValue where
  | str (s : String)
  | num (n : Int)
  | boolean (b : Bool)
  | strList (xs : List String)
deriving DecidableEq, Repr

/-- `fmt.Sprint` on the `GoValue` scalars (the `[]string` case is routed away
by the type switch in `headersToHAR` before `fmt.Sprint` is reached). -/
def sprint : GoValue → String
  | .str s => s
  | .num n => toString n
  | .boolean b => if b then ("true") else ("false")
  | .strList xs => "[" ++ String.intercalate (" ") xs ++ "]"

/-- `har.NameValuePair`: one flattened header pair. -/
structure NameValuePair where
  name : String
  value : String
deriving DecidableEq, Repr

/-- A header mapping (`network.Headers`). Go map iteration order is
unspecified; we model one concrete iteration order as an association list
(keys unique, as in a Go map). -/
def Headers : Type := List (String × GoValue)

/-- `headersToHAR` from `main.go`: range over the map; a `[]string` value
contributes one pair per element in order, any other value one pair whose
value is its `fmt.Sprint` rendering. -/
def headersToHAR : List (String × GoValue) → List NameValuePair
  | [] => []
  | (name, values) :: rest =>
    (match values with
     | .strList arr => arr.map fun value => ⟨name, value⟩
     | v => [⟨name, sprint v⟩]) ++ headersToHAR rest

/-- A wall-clock instant as Go's `time.Time` exposes it (UTC civil fields plus
nanoseconds), the input to `Format(time.RFC3339Nano)`. -/
structure GoTime where
  year : Nat
  month : Nat
  day : Nat
  hour : Nat
  minute : Nat
  second : Nat
  nanos : Nat
deriving DecidableEq, Repr

/-- Left-pad a decimal rendering to two digits. -/
def pad2 (n : Nat) : String :=
  if n < 10 then ("0") ++ toString n else toString n

/-- Left-pad a decimal rendering to four digits. -/
def pad4 (n : Nat) : String :=
  if n < 10 then ("000") ++ toString n
  else if n < 100 then ("00") ++ toString n
  else if n < 1000 then ("0") ++ toString n
  else toString n

/-- Left-pad a decimal rendering to nine digits (the nanosecond field). -/
def pad9 (n : Nat) : String :=
  let s := toString n
  String.mk (List.replicate (9 - s.length) '0') ++ s

/-- Strip trailing zero digits, as Go's `RFC3339Nano` layout does for the
fractional-second field. -/
def trimTrailingZeros (s : String) : String :=
  String.mk ((s.toList.reverse.dropWhile fun c => c = '0').reverse)

/-- The fractional-second suffix of `RFC3339Nano`: empty when the nanosecond
count is zero, otherwise a dot followed by the nanoseconds with trailing
zeros removed. -/
def fracNano (n : Nat) : String :=
  if n = 0 then ("") else (".") ++ trimTrailingZeros (pad9 n)

/-- `t.Format(time.RFC3339Nano)` for a UTC instant: ISO-8601 with nanosecond
precision, trailing fractional zeros removed. -/
def formatRFC3339Nano (t : GoTime) : String :=
  pad4 t.year ++ "-" ++ pad2 t.month ++ "-" ++ pad2 t.day ++ "T" ++
    pad2 t.hour ++ ":" ++ pad2 t.minute ++ ":" ++ pad2 t.second ++
    fracNano t.nanos ++ "Z"

/-- The request summary carried by `network.EventRequestWillBeSent.Request`. -/
structure Request where
  method : String
  url : String
  headers : List (String × GoValue)
deriving DecidableEq, Repr

/-- `network.EventRequestWillBeSent`, restricted to the fields `main.go`
reads. -/
structure EventRequestWillBeSent where
  requestID : String
  type : ResourceType
  wallTime : GoTime
  request : Request
deriving DecidableEq, Repr

/-- `network.EventResponseReceived`, restricted to the fields `main.go`
reads. -/
structure EventResponseReceived where
  requestID : String
  type : ResourceType
deriving DecidableEq, Repr

/-- `har.Page`, restricted to the fields this program populates; the Go zero
value has every field equal to the empty string. -/
structure HarPage where
  id : String
  startedDateTime : String
  title : String
deriving DecidableEq, Repr

/-- `har.Request`, restricted to the fields this program populates. -/
structure HarRequest where
  method : String
  url : String
  headers : List NameValuePair
deriving DecidableEq, Repr

/-- `har.Entry`, restricted to the fields this program populates. `request`
is a Go pointer (`*har.Request`), so `none` models the nil pointer of the
zero value `har.Entry\x7b\x7d`. -/
structure HarEntry where
  pageref : String
  startedDateTime : String
  request : Option HarRequest
deriving DecidableEq, Repr

/-- A value sent over the `harCh` channel (`chan interface\x7b\x7d`): the two
handlers only ever send `har.Page` or `har.Entry`. -/
inductive HarMsg where
  | page (p : HarPage)
  | entry (e : HarEntry)
deriving DecidableEq, Repr

/-- The zero value `har.Page\x7b\x7d` sent by `processResponse` for
Document-typed responses. -/
def emptyPage : HarPage := ⟨"", "", ""⟩

/-- The zero value `har.Entry\x7b\x7d` sent by `processResponse` for
non-Document responses. -/
def emptyEntry : HarEntry := ⟨"", "", none⟩

/-- `processRequest` from `main.go`: Document-typed request events become a
`har.Page`, all others a `har.Entry`; in Lean the message sent over `harCh`
is returned. -/
def processRequest (ev : EventRequestWillBeSent) : HarMsg :=
  match ev.type with
  | .document =>
      .page { id := "page_" ++ ev.requestID
              startedDateTime := formatRFC3339Nano ev.wallTime
              title := ev.request.url }
  | _ =>
      .entry { pageref := "page_" ++ ev.requestID
               startedDateTime := formatRFC3339Nano ev.wallTime
               request := some { method := ev.request.method
                                 url := ev.request.url
                                 headers := headersToHAR ev.request.headers } }

/-- `processResponse` from `main.go`: sends a zero-valued `har.Page` for
Document-typed responses and a zero-valued `har.Entry` otherwise. -/
def processResponse (ev : EventResponseReceived) : HarMsg :=
  match ev.type with
  | .document => .page emptyPage
  | _ => .entry emptyEntry

/-- An event delivered by the automation driver to the `ListenTarget`
callback: the three cases the `switch` in `main.go` handles, plus the ignored
default. -/
inductive DriverEvent where
  | requestWillBeSent (ev : EventRequestWillBeSent)
  | responseReceived (ev : EventResponseReceived)
  | lifecycle (name : String)
  | unhandled
deriving DecidableEq, Repr

/-- The effect a single `ListenTarget` callback invocation has on `harCh`. -/
inductive ChanAction where
  | send (m : HarMsg)
  | close
  | skip
deriving DecidableEq, Repr

/-- The `ListenTarget` callback from `main.go`, as a map from driver event to
channel action: request and response events spawn a goroutine that sends the
classified record; an `InteractiveTime` lifecycle event closes the channel;
everything else is ignored. -/
def listenHandler : DriverEvent → ChanAction
  | .requestWillBeSent ev => .send (processRequest ev)
  | .responseReceived ev => .send (processResponse ev)
  | .lifecycle name => if name = "InteractiveTime" then .close else .skip
  | .unhandled => .skip

/-- State of the unbuffered `harCh` channel together with the consumer:
`accepted` lists the sends accepted by the drain loop in receive order,
`closed` records whether `close(harCh)` has run, and the two flags record the
Go runtime panics "send on closed channel" and "close of closed channel". -/
structure ChanState where
  accepted : List HarMsg
  closed : Bool
  sendOnClosed : Bool
  closeOnClosed : Bool
deriving DecidableEq, Repr

/-- The channel state at program start: open, nothing accepted, no panic. -/
def initChan : ChanState := ⟨[], false, false, false⟩

/-- Go channel semantics for one action. A send on a closed channel and a
close of a closed channel each panic, which crashes the process, so a
panicked state absorbs all later actions. -/
def chanStep (s : ChanState) (a : ChanAction) : ChanState :=
  if s.sendOnClosed ∨ s.closeOnClosed then s
  else
    match a with
    | .send m =>
        if s.closed then { s with sendOnClosed := true }
        else { s with accepted := s.accepted ++ [m] }
    | .close =>
        if s.closed then { s with closeOnClosed := true }
        else { s with closed := true }
    | .skip => s

/-- Run the capture session over a driver event sequence, taken in the order
the sends are accepted at the single intake (the serialization point of the
fan-in; the spec promises no particular producer order, only that receive
order is accept order). -/
def runSession (events : List DriverEvent) : ChanState :=
  events.foldl (fun s e => chanStep s (listenHandler e)) initChan

/-- `har.Creator` (also used for the browser metadata). -/
structure Creator where
  name : String
  version : String
  comment : String
deriving DecidableEq, Repr

/-- `har.Log`, restricted to the fields `main.go` populates. -/
structure HarLog where
  version : String
  creator : Creator
  browser : Creator
  pages : List HarPage
  entries : List HarEntry
deriving DecidableEq, Repr

/-- The `harObject.Log` literal built in `main.go` before the drain loop. -/
def initialLog : HarLog :=
  { version := "1.2"
    creator := ⟨"chromedp", "0.1.0", "HAR capture"⟩
    browser := ⟨"Google Chrome", "90.0.4430.93", ""⟩
    pages := []
    entries := [] }

/-- The drain loop of `main.go` (`for data := range harCh`): each received
`har.Page` is appended to the log's pages, each `har.Entry` to its entries,
in receive order. -/
def drain (msgs : List HarMsg) (log : HarLog) : HarLog :=
  msgs.foldl
    (fun l m =>
      match m with
      | .page p => { l with pages := l.pages ++ [p] }
      | .entry e => { l with entries := l.entries ++ [e] })
    log

/-- Count of Document-typed request-sent events in a driver event sequence. -/
def countDocRequests (events : List DriverEvent) : Nat :=
  events.countP fun e =>
    match e with
    | .requestWillBeSent ev => ev.type = .document
    | _ => false

/-- Count of non-Document request-sent events in a driver event sequence. -/
def countNonDocRequests (events : List DriverEvent) : Nat :=
  events.countP fun e =>
    match e with
    | .requestWillBeSent ev => ¬ (ev.type = .document)
    | _ => false

/-- Count of `InteractiveTime` lifecycle events in a driver event sequence. -/
def countInteractive (events : List DriverEvent) : Nat :=
  events.countP fun e =>
    match e with
    | .lifecycle name => name = "InteractiveTime"
    | _ => false

/-!
## Session controller control flow

`main.go` after registering the listener: run the navigation; on error log a
warning and return; otherwise drain `harCh` into the log, marshal it, write
`output.har`, and log success. The drain loop terminates only when the
channel is closed, so a session whose event sequence never contains an
`InteractiveTime` lifecycle event blocks forever; we model that outcome as
`none`.
-/

/-- A log line emitted by `main.go` (the four `logger` calls). -/
inductive LogMsg where
  | warnNavigation (err : String)
  | warnMarshal (err : String)
  | warnWrite (err : String)
  | infoSuccess
deriving DecidableEq, Repr

/-- An observable effect of the run: a log line or a file write. -/
inductive Effect where
  | log (m : LogMsg)
  | writeFile (path : String) (contents : String)
deriving DecidableEq, Repr

/-!
## The HAR 1.2 JSON artifact format

Modelled from the spec: the serialization performed by `encoding/json` over
the `cdproto/har` structs is outside `src/`, so the artifact grammar of §6
(`\x7b "log": \x7b "version", "creator", "browser", "pages", "entries" \x7d \x7d`) is
embedded as a JSON syntax tree with an encoder and a decoder over it.
-/

/-- A JSON value (the fragment the artifact format uses). -/
inductive Json where
  | null
  | str (s : String)
  | arr (xs : List Json)
  | obj (fields : List (String × Json))

mutual
/-- Render a JSON value as text (string escaping elided: none of the strings
this program produces need it). -/
def renderJson : Json → String
  | .null => "null"
  | .str s => "\"" ++ s ++ "\""
  | .arr xs => "[" ++ renderJsonElems xs ++ "]"
  | .obj fs => "\x7b" ++ renderJsonFields fs ++ "\x7d"

/-- Render the comma-separated elements of a JSON array. -/
def renderJsonElems : List Json → String
  | [] => ""
  | [x] => renderJson x
  | x :: xs => renderJson x ++ "," ++ renderJsonElems xs

/-- Render the comma-separated fields of a JSON object. -/
def renderJsonFields : List (String × Json) → String
  | [] => ""
  | [(n, v)] => "\"" ++ n ++ "\":" ++ renderJson v
  | (n, v) :: fs => "\"" ++ n ++ "\":" ++ renderJson v ++ "," ++ renderJsonFields fs
end

/-- Look up a field of a JSON object's field list by name. -/
def getField (fields : List (String × Json)) (name : String) : Option Json :=
  (fields.find? fun f => f.1 = name).map fun f => f.2

/-- Project a JSON string. -/
def asStr : Json → Option String
  | .str s => some s
  | _ => none

/-- Encode one header pair (`\x7b"name": str, "value": str\x7d`). -/
def encodePair (p : NameValuePair) : Json :=
  .obj [("name", .str p.name), ("value", .str p.value)]

/-- Decode one header pair. -/
def decodePair (j : Json) : Option NameValuePair :=
  match j with
  | .obj f => do
      let n ← (getField f ("name")).bind asStr
      let v ← (getField f ("value")).bind asStr
      pure ⟨n, v⟩
  | _ => none

/-- Encode a `har.Page` (`\x7b"id", "startedDateTime", "title"\x7d`). -/
def encodePage (p : HarPage) : Json :=
  .obj [("id", .str p.id), ("startedDateTime", .str p.startedDateTime),
        ("title", .str p.title)]

/-- Decode a `har.Page`. -/
def decodePage (j : Json) : Option HarPage :=
  match j with
  | .obj f => do
      let i ← (getField f ("id")).bind asStr
      let s ← (getField f ("startedDateTime")).bind asStr
      let t ← (getField f ("title")).bind asStr
      pure ⟨i, s, t⟩
  | _ => none

/-- Encode a `har.Request` (`\x7b"method", "url", "headers"\x7d`). -/
def encodeRequest (r : HarRequest) : Json :=
  .obj [("method", .str r.method), ("url", .str r.url),
        ("headers", .arr (r.headers.map encodePair))]

/-- Decode a list of JSON values elementwise, failing if any element fails. -/
def decodeEach (d : Json → Option α) : List Json → Option (List α)
  | [] => some []
  | x :: xs => do
      let a ← d x
      let as ← decodeEach d xs
      pure (a :: as)

/-- Decode a JSON array elementwise. -/
def decodeArr (d : Json → Option α) : Json → Option (List α)
  | .arr xs => decodeEach d xs
  | _ => none

/-- Decode a `har.Request`. -/
def decodeRequest (j : Json) : Option HarRequest :=
  match j with
  | .obj f => do
      let m ← (getField f ("method")).bind asStr
      let u ← (getField f ("url")).bind asStr
      let hj ← getField f ("headers")
      let hs ← decodeArr decodePair hj
      pure ⟨m, u, hs⟩
  | _ => none

/-- Encode a `har.Entry`; a nil `*har.Request` pointer encodes as `null`. -/
def encodeEntry (e : HarEntry) : Json :=
  .obj [("pageref", .str e.pageref),
        ("startedDateTime", .str e.startedDateTime),
        ("request", match e.request with
                    | some r => encodeRequest r
                    | none => .null)]

/-- Decode a `har.Entry`. -/
def decodeEntry (j : Json) : Option HarEntry :=
  match j with
  | .obj f => do
      let p ← (getField f ("pageref")).bind asStr
      let s ← (getField f ("startedDateTime")).bind asStr
      let rj ← getField f ("request")
      let r ← match rj with
              | .null => some none
              | other => (decodeRequest other).map some
      pure ⟨p, s, r⟩
  | _ => none

/-- Encode a `har.Creator` (`\x7b"name", "version", "comment"\x7d`). -/
def encodeCreator (c : Creator) : Json :=
  .obj [("name", .str c.name), ("version", .str c.version),
        ("comment", .str c.comment)]

/-- Decode a `har.Creator`. -/
def decodeCreator (j : Json) : Option Creator :=
  match j with
  | .obj f => do
      let n ← (getField f ("name")).bind asStr
      let v ← (getField f ("version")).bind asStr
      let c ← (getField f ("comment")).bind asStr
      pure ⟨n, v, c⟩
  | _ => none

/-- Encode a `har.Log` and wrap it as the top-level HAR object
(`\x7b"log": ...\x7d`). -/
def encodeHar (l : HarLog) : Json :=
  .obj [("log", .obj
    [("version", .str l.version),
     ("creator", encodeCreator l.creator),
     ("browser", encodeCreator l.browser),
     ("pages", .arr (l.pages.map encodePage)),
     ("entries", .arr (l.entries.map encodeEntry))])]

/-- Decode a top-level HAR object back into a `har.Log`. -/
def decodeHar (j : Json) : Option HarLog :=
  match j with
  | .obj top => do
      let lj ← getField top ("log")
      match lj with
      | .obj f => do
          let v ← (getField f ("version")).bind asStr
          let cj ← getField f ("creator")
          let c ← decodeCreator cj
          let bj ← getField f ("browser")
          let b ← decodeCreator bj
          let pj ← getField f ("pages")
          let ps ← decodeArr decodePage pj
          let ej ← getField f ("entries")
          let es ← decodeArr decodeEntry ej
          pure ⟨v, c, b, ps, es⟩
      | _ => none
  | _ => none

/-- The run of `main.go` after the listener is registered. `navResult` is the
error returned by `chromedp.Run` (`none` on success), `events` the driver
event sequence in intake-acceptance order, `writeResult` the error from
`os.WriteFile`. Marshalling of these struct types cannot fail, so the
marshal-error branch is unreachable and not parameterized. The result is the
ordered effect trace, or `none` when the drain loop never terminates because
`harCh` is never closed. -/
def mainRun (navResult : Option String) (events : List DriverEvent)
    (writeResult : Option String) : Option (List Effect) :=
  match navResult with
  | some err => some [.log (.warnNavigation err)]
  | none =>
      let s := runSession events
      if s.closed then
        let finalLog := drain s.accepted initialLog
        match writeResult with
        | some err => some [.log (.warnWrite err)]
        | none =>
            some [.writeFile ("output.har") (renderJson (encodeHar finalLog)),
                  .log .infoSuccess]
      else none

/-!
## Test fixtures

Concrete events used by witnesses, counterexamples and code evaluations.
-/

/-- A concrete wall-clock instant. -/
def sampleTime : GoTime := ⟨2021, 4, 28, 12, 30, 5, 123000000⟩

/-- A Document-typed request-sent event (the top-level navigation). -/
def sampleDocEvent : EventRequestWillBeSent :=
  ⟨"1000.1", .document, sampleTime,
   ⟨"GET", "https://google.com/", [("Accept", .str ("text/html"))]⟩⟩

/-- An Image-typed request-sent event (a sub-resource). -/
def sampleImgEvent : EventRequestWillBeSent :=
  ⟨"1000.2", .image, sampleTime,
   ⟨"GET", "https://google.com/logo.png",
    [("Accept", .strList ["image/png", "image/webp"])]⟩⟩

/-- The response-received event paired with `sampleImgEvent`. -/
def sampleImgResponse : EventResponseReceived := ⟨"1000.2", .image⟩

/-- A short session: one sub-resource request, its response, then the
`InteractiveTime` lifecycle event. -/
def sampleRunEvents : List DriverEvent :=
  [.requestWillBeSent sampleImgEvent,
   .responseReceived sampleImgResponse,
   .lifecycle ("InteractiveTime")]

/-!
## Helper functions and lemmas
-/

/-- Project the `har.Page` out of a channel message. -/
def pageOf : HarMsg → Option HarPage
  | .page p => some p
  | .entry _ => none

/-- Project the `har.Entry` out of a channel message. -/
def entryOf : HarMsg → Option HarEntry
  | .page _ => none
  | .entry e => some e

/-- Number of scalar values carried by one header value. -/
def scalarCount : GoValue → Nat
  | .strList arr => arr.length
  | _ => 1

/-- The pairs one header contributes to `headersToHAR`'s output. -/
def blockOf (nv : String × GoValue) : List NameValuePair :=
  match nv.2 with
  | .strList arr => arr.map fun value => ⟨nv.1, value⟩
  | v => [⟨nv.1, sprint v⟩]

/-- `true` exactly on file-write effects. -/
def isWriteFile : Effect → Bool
  | .writeFile _ _ => true
  | _ => false

/-- `true` exactly on the success log line. -/
def isSuccessLog : Effect → Bool
  | .log .infoSuccess => true
  | _ => false

theorem headersToHAR_cons (nv : String × GoValue) (rest : List (String × GoValue)) :
    headersToHAR (nv :: rest) = blockOf nv ++ headersToHAR rest := by
  obtain ⟨n, v⟩ := nv
  cases v <;> rfl

theorem mem_blockOf_name {p : NameValuePair} {nv : String × GoValue}
    (h : p ∈ blockOf nv) : p.name = nv.1 := by
  obtain ⟨n, v⟩ := nv
  cases v <;> simp [blockOf] at h <;> simp [h]
  obtain ⟨a, _, rfl⟩ := h
  rfl

theorem blockOf_length (nv : String × GoValue) :
    (blockOf nv).length = scalarCount nv.2 := by
  obtain ⟨n, v⟩ := nv
  cases v <;> simp [blockOf, scalarCount]

theorem headersToHAR_name_mem {hs : List (String × GoValue)} {p : NameValuePair}
    (h : p ∈ headersToHAR hs) : ∃ v, (p.name, v) ∈ hs := by
  induction hs with
  | nil => simp [headersToHAR] at h
  | cons nv rest ih =>
    obtain ⟨n, v⟩ := nv
    rw [headersToHAR_cons] at h
    rcases List.mem_append.mp h with h1 | h2
    · refine ⟨v, ?_⟩
      rw [mem_blockOf_name h1]
      exact List.mem_cons_self _ _
    · obtain ⟨w, hw⟩ := ih h2
      exact ⟨w, List.mem_cons_of_mem _ hw⟩

theorem headersToHAR_filter_not_mem {hs : List (String × GoValue)} {n : String}
    (h : n ∉ hs.map Prod.fst) :
    (headersToHAR hs).filter (fun p => p.name = n) = [] := by
  rw [List.filter_eq_nil_iff]
  intro p hp
  obtain ⟨v, hv⟩ := headersToHAR_name_mem hp
  simp only [decide_eq_true_eq]
  intro hn
  exact h (by rw [← hn]; exact List.mem_map_of_mem Prod.fst hv)

theorem filter_blockOf_eq (n : String) (arr : List String) :
    (blockOf (n, GoValue.strList arr)).filter (fun p => p.name = n) =
      arr.map fun v => ⟨n, v⟩ := by
  have hall : ∀ p ∈ blockOf (n, GoValue.strList arr), decide (p.name = n) = true := by
    intro p hp
    have := mem_blockOf_name hp
    simp [this]
  rw [List.filter_eq_self.mpr hall]
  simp [blockOf]

theorem filter_blockOf_ne {n : String} (nv : String × GoValue) (hne : nv.1 ≠ n) :
    (blockOf nv).filter (fun p => p.name = n) = [] := by
  rw [List.filter_eq_nil_iff]
  intro p hp
  have := mem_blockOf_name hp
  simp [this, hne]

/-- Claim C1: for a Document-typed request-sent event, `processRequest` emits
exactly one `har.Page` whose id is `page_` followed by the request id, whose
start time is the wall-clock timestamp in RFC3339 nanosecond format and whose
title is the request URL; for any other resource type it emits exactly one
`har.Entry` whose pageref is `page_` followed by the event's own request id,
start time derived the same way, and a request summary carrying the method,
URL and normalized headers. -/
theorem processRequest_classifies (ev : EventRequestWillBeSent) :
    (ev.type = .document →
      processRequest ev = .page
        ⟨"page_" ++ ev.requestID, formatRFC3339Nano ev.wallTime, ev.request.url⟩) ∧
    (ev.type ≠ .document →
      processRequest ev = .entry
        ⟨"page_" ++ ev.requestID, formatRFC3339Nano ev.wallTime,
         some ⟨ev.request.method, ev.request.url, headersToHAR ev.request.headers⟩⟩) := by
  obtain ⟨rid, ty, wt, req⟩ := ev
  cases ty <;> simp [processRequest]

/-- Witness for C1 at the two concrete sample events. -/
theorem processRequest_classifies_witness :
    sampleDocEvent.type = .document ∧
    processRequest sampleDocEvent = .page
      ⟨"page_" ++ sampleDocEvent.requestID, formatRFC3339Nano sampleDocEvent.wallTime,
       sampleDocEvent.request.url⟩ ∧
    sampleImgEvent.type ≠ .document ∧
    processRequest sampleImgEvent = .entry
      ⟨"page_" ++ sampleImgEvent.requestID, formatRFC3339Nano sampleImgEvent.wallTime,
       some ⟨sampleImgEvent.request.method, sampleImgEvent.request.url,
             headersToHAR sampleImgEvent.request.headers⟩⟩ :=
  ⟨rfl, (processRequest_classifies sampleDocEvent).1 rfl,
   by decide, (processRequest_classifies sampleImgEvent).2 (by decide)⟩

theorem drain_pages_entries (msgs : List HarMsg) :
    ∀ log : HarLog,
      (drain msgs log).pages = log.pages ++ msgs.filterMap pageOf ∧
      (drain msgs log).entries = log.entries ++ msgs.filterMap entryOf := by
  induction msgs with
  | nil => intro log; simp [drain]
  | cons m rest ih =>
    intro log
    cases m with
    | page p =>
        have h := ih { log with pages := log.pages ++ [p] }
        simp only [drain, List.foldl_cons] at h ⊢
        simp [h.1, h.2, pageOf, entryOf]
    | entry e =>
        have h := ih { log with entries := log.entries ++ [e] }
        simp only [drain, List.foldl_cons] at h ⊢
        simp [h.1, h.2, pageOf, entryOf]

theorem filterMap_page_entry_length (msgs : List HarMsg) :
    (msgs.filterMap pageOf).length + (msgs.filterMap entryOf).length = msgs.length := by
  induction msgs with
  | nil => rfl
  | cons m rest ih =>
    cases m <;> simp [pageOf, entryOf, List.filterMap_cons] <;> omega

/-- Claim C3: the drain loop appends each received `har.Page` to the log's
page sequence and each received `har.Entry` to its entry sequence, in receive
order, so the two output sequence lengths sum to the number of sends accepted
before completion. -/
theorem aggregator_drain_order (msgs : List HarMsg) :
    (drain msgs initialLog).pages = msgs.filterMap pageOf ∧
    (drain msgs initialLog).entries = msgs.filterMap entryOf ∧
    (drain msgs initialLog).pages.length + (drain msgs initialLog).entries.length
      = msgs.length := by
  have h := drain_pages_entries msgs initialLog
  have hp : initialLog.pages = [] := rfl
  have he : initialLog.entries = [] := rfl
  rw [hp] at h
  rw [he] at h
  refine ⟨by simp [h.1], by simp [h.2], ?_⟩
  rw [h.1, h.2]
  simp [filterMap_page_entry_length msgs]

/-- Claim C2 (code evaluation at the failing input): a session with one
non-Document request, its non-Document response, and then the completion
lifecycle event finalizes with two entries — the zero-valued placeholder the
response hook emitted is blindly appended as a second, incomplete entry, so
the entry count no longer equals the number of non-Document request-sent
events. -/
theorem processResponse_placeholder_corrupts_counts :
    countNonDocRequests sampleRunEvents = 1 ∧
    (drain (runSession sampleRunEvents).accepted initialLog).entries.length = 2 ∧
    emptyEntry ∈ (drain (runSession sampleRunEvents).accepted initialLog).entries ∧
    (drain (runSession sampleRunEvents).accepted initialLog).entries.length ≠
      countNonDocRequests sampleRunEvents := by
  refine ⟨by decide, by decide, by decide, by decide⟩

/-- Claim C4 (code evaluation at the failing input): a classified record
arriving after the `InteractiveTime` handler has closed the intake is not
silently dropped — the producer's send on the closed channel panics (a Go
runtime error that crashes the run), contradicting the dropped-not-error
claim. -/
theorem send_after_close_panics :
    (runSession [.lifecycle ("InteractiveTime"),
                 .requestWillBeSent sampleImgEvent]).closed = true ∧
    (runSession [.lifecycle ("InteractiveTime"),
                 .requestWillBeSent sampleImgEvent]).sendOnClosed = true ∧
    (runSession [.lifecycle ("InteractiveTime"),
                 .requestWillBeSent sampleImgEvent]).accepted = [] := by
  refine ⟨by decide, by decide, by decide⟩

theorem headersToHAR_length (hs : List (String × GoValue)) :
    (headersToHAR hs).length = (hs.map fun nv => scalarCount nv.2).sum := by
  induction hs with
  | nil => rfl
  | cons nv rest ih =>
    rw [headersToHAR_cons]
    simp [blockOf_length, ih]

theorem headersToHAR_filter_multi {hs : List (String × GoValue)}
    (hnodup : (hs.map Prod.fst).Nodup) {n : String} {arr : List String}
    (hmem : (n, GoValue.strList arr) ∈ hs) :
    (headersToHAR hs).filter (fun p => p.name = n) = arr.map fun v => ⟨n, v⟩ := by
  induction hs with
  | nil => simp at hmem
  | cons nv rest ih =>
    obtain ⟨m, w⟩ := nv
    rw [headersToHAR_cons, List.filter_append]
    simp only [List.map_cons, List.nodup_cons] at hnodup
    rcases List.mem_cons.mp hmem with heq | hrest
    · cases heq
      rw [filter_blockOf_eq]
      rw [headersToHAR_filter_not_mem hnodup.1, List.append_nil]
    · have hn : n ∈ rest.map Prod.fst := List.mem_map_of_mem Prod.fst hrest
      have hne : (m, w).1 ≠ n := by
        intro h
        apply hnodup.1
        rw [show m = n from h]
        exact hn
      rw [filter_blockOf_ne (m, w) hne, List.nil_append]
      exact ih hnodup.2 hrest

theorem headersToHAR_scalar_mem {hs : List (String × GoValue)} {n : String}
    {v : GoValue} (hmem : (n, v) ∈ hs) (hv : ∀ xs, v ≠ GoValue.strList xs) :
    (⟨n, sprint v⟩ : NameValuePair) ∈ headersToHAR hs := by
  induction hs with
  | nil => simp at hmem
  | cons nv rest ih =>
    rw [headersToHAR_cons, List.mem_append]
    rcases List.mem_cons.mp hmem with heq | hrest
    · left
      rw [← heq]
      cases v with
      | strList xs => exact absurd rfl (hv xs)
      | str s => simp [blockOf]
      | num k => simp [blockOf]
      | boolean b => simp [blockOf]
    · right
      exact ih hrest

/-- Claim C5: for every header mapping (unique names, as in a Go map) whose
values are scalars or lists, `headersToHAR` outputs exactly one pair per
scalar value: the total length is the sum of the per-header scalar counts,
every output pair's name comes from the mapping (no pairs for absent
headers), a multi-valued header's pairs are exactly its elements in order,
and a non-list scalar contributes its textual rendering; the function is
total, so no input is an error. -/
theorem headerNormalizer_flattens (headers : List (String × GoValue))
    (hnodup : (headers.map Prod.fst).Nodup) :
    ((headersToHAR headers).length
        = (headers.map fun nv => scalarCount nv.2).sum) ∧
    (∀ p ∈ headersToHAR headers, ∃ v, (p.name, v) ∈ headers) ∧
    (∀ n arr, (n, GoValue.strList arr) ∈ headers →
      (headersToHAR headers).filter (fun p => p.name = n)
        = arr.map fun v => ⟨n, v⟩) ∧
    (∀ n v, (n, v) ∈ headers → (∀ xs, v ≠ GoValue.strList xs) →
      (⟨n, sprint v⟩ : NameValuePair) ∈ headersToHAR headers) := by
  refine ⟨headersToHAR_length headers, ?_, ?_, ?_⟩
  · intro p hp
    exact headersToHAR_name_mem hp
  · intro n arr hmem
    exact headersToHAR_filter_multi hnodup hmem
  · intro n v hmem hv
    exact headersToHAR_scalar_mem hmem hv

/-- A concrete header mapping with a multi-valued and a scalar header. -/
def sampleHeaders : List (String × GoValue) :=
  [("Accept", .strList ["image/png", "image/webp"]), ("Host", .str ("g.com"))]

/-- Witness for C5 at a concrete mapping: the multi-valued header's pairs are
its two values in order. -/
theorem headerNormalizer_flattens_witness :
    (sampleHeaders.map Prod.fst).Nodup ∧
    (headersToHAR sampleHeaders).filter (fun p => p.name = "Accept")
      = [⟨"Accept", "image/png"⟩, ⟨"Accept", "image/webp"⟩] := by
  refine ⟨by decide, ?_⟩
  have h := (headerNormalizer_flattens sampleHeaders (by decide)).2.2.1
    ("Accept") (["image/png", "image/webp"]) (by decide)
  simpa using h

/-- Claim C10: `headersToHAR` is total, and a header whose value is an empty
list contributes nothing: no output pair carries its name, and the empty
mapping yields the empty output. -/
theorem headersToHAR_drops_empty_list (headers : List (String × GoValue))
    (hnodup : (headers.map Prod.fst).Nodup) (n : String)
    (hmem : (n, GoValue.strList []) ∈ headers) :
    (∀ p ∈ headersToHAR headers, p.name ≠ n) ∧
    headersToHAR ([] : List (String × GoValue)) = [] := by
  refine ⟨?_, rfl⟩
  intro p hp hpn
  have h := headersToHAR_filter_multi hnodup hmem
  simp only [List.map_nil] at h
  have hmemf : p ∈ (headersToHAR headers).filter (fun q => q.name = n) :=
    List.mem_filter.mpr ⟨hp, by simp [hpn]⟩
  rw [h] at hmemf
  simp at hmemf

/-- Witness for C10: a mapping with an empty-list header and one scalar
header; the surviving pair's name is not the dropped header's name. -/
theorem headersToHAR_drops_empty_list_witness :
    (([("X", GoValue.strList []), ("Host", GoValue.str ("g"))].map Prod.fst)).Nodup ∧
    (⟨"Host", "g"⟩ : NameValuePair).name ≠ "X" := by
  refine ⟨by decide, ?_⟩
  exact (headersToHAR_drops_empty_list
    [("X", GoValue.strList []), ("Host", GoValue.str ("g"))]
    (by decide) ("X") (by decide)).1 ⟨"Host", "g"⟩ (by decide)

theorem chanStep_closeOnClosed_false {s : ChanState} {a : ChanAction}
    (h1 : s.closeOnClosed = false) (h2 : a = ChanAction.close → s.closed = false) :
    (chanStep s a).closeOnClosed = false := by
  cases a with
  | send m =>
      simp only [chanStep]
      split
      · exact h1
      · split <;> simpa using h1
  | close =>
      simp only [chanStep]
      split
      · exact h1
      · rw [h2 rfl]
        simpa using h1
  | skip =>
      simp only [chanStep]
      split <;> exact h1

theorem chanStep_closed_eq {s : ChanState} {a : ChanAction}
    (ha : a ≠ ChanAction.close) : (chanStep s a).closed = s.closed := by
  cases a with
  | send m =>
      simp only [chanStep]
      split
      · rfl
      · split <;> rfl
  | close => exact absurd rfl ha
  | skip =>
      simp only [chanStep]
      split <;> rfl

theorem interactive_count_cons (e : DriverEvent) (rest : List DriverEvent) :
    countInteractive (e :: rest) =
      countInteractive rest +
        (if listenHandler e = ChanAction.close then 1 else 0) := by
  cases e with
  | lifecycle name =>
      simp only [countInteractive, List.countP_cons, listenHandler]
      by_cases h : name = "InteractiveTime" <;> simp [h]
  | requestWillBeSent ev =>
      simp [countInteractive, List.countP_cons, listenHandler]
  | responseReceived ev =>
      simp [countInteractive, List.countP_cons, listenHandler]
  | unhandled =>
      simp [countInteractive, List.countP_cons, listenHandler]

theorem runSession_close_inv (events : List DriverEvent) :
    ∀ s : ChanState, s.closeOnClosed = false →
      (s.closed = true → countInteractive events = 0) →
      countInteractive events ≤ 1 →
      (events.foldl (fun t e => chanStep t (listenHandler e)) s).closeOnClosed
        = false := by
  induction events with
  | nil =>
      intro s h1 _ _
      simpa using h1
  | cons e rest ih =>
      intro s h1 h2 h3
      rw [List.foldl_cons]
      have hcc := interactive_count_cons e rest
      by_cases hint : listenHandler e = ChanAction.close
      · have hrest0 : countInteractive rest = 0 := by
          rw [hcc] at h3
          simp [hint] at h3
          omega
        have hscl : s.closed = false := by
          cases hcl : s.closed
          · rfl
          · exfalso
            have h0 := h2 hcl
            rw [hcc] at h0
            simp [hint] at h0
        apply ih
        · exact chanStep_closeOnClosed_false h1 (fun _ => hscl)
        · intro _
          exact hrest0
        · omega
      · apply ih
        · exact chanStep_closeOnClosed_false h1 (fun hc => absurd hc hint)
        · intro hcl
          rw [chanStep_closed_eq hint] at hcl
          have h0 := h2 hcl
          rw [hcc] at h0
          simpa [hint] using h0
        · rw [hcc] at h3
          simpa [hint] using h3

/-- Claim C7 (amended): the close of the intake is issued only from the
lifecycle-event handler, and for every driver event sequence containing at
most one `InteractiveTime` lifecycle event the intake is never closed twice.
(The unamended claim, quantifying over all event sequences, fails: see the
counterexample with a duplicated `InteractiveTime` event.) -/
theorem close_owned_single_interactive (events : List DriverEvent)
    (h : countInteractive events ≤ 1) :
    (runSession events).closeOnClosed = false :=
  runSession_close_inv events initChan rfl
    (fun hc => by simp [initChan] at hc) h

/-- Witness for C7 at the concrete sample session (one interactive event). -/
theorem close_owned_single_interactive_witness :
    countInteractive sampleRunEvents ≤ 1 ∧
    (runSession sampleRunEvents).closeOnClosed = false :=
  ⟨by decide, close_owned_single_interactive sampleRunEvents (by decide)⟩

/-- Counterexample to claim C7 as stated: a driver event sequence with two
`InteractiveTime` lifecycle events makes the handler close the already-closed
intake — the Go `close of closed channel` panic — so the close is not
design-prevented from happening twice. -/
theorem double_interactive_closes_twice :
    (runSession [.lifecycle ("InteractiveTime"),
                 .lifecycle ("InteractiveTime")]).closeOnClosed = true := by
  decide

theorem runSession_closed_inv (events : List DriverEvent) :
    ∀ s : ChanState, s.closed = false → countInteractive events = 0 →
      (events.foldl (fun t e => chanStep t (listenHandler e)) s).closed
        = false := by
  induction events with
  | nil =>
      intro s h _
      simpa using h
  | cons e rest ih =>
      intro s h h0
      rw [List.foldl_cons]
      have hcc := interactive_count_cons e rest
      by_cases hint : listenHandler e = ChanAction.close
      · rw [hcc] at h0
        simp [hint] at h0
      · apply ih
        · rw [chanStep_closed_eq hint]
          exact h
        · rw [hcc] at h0
          simpa [hint] using h0

/-- Claim C8 (code evaluation): when no `InteractiveTime` lifecycle event
ever fires, `harCh` is never closed, so the drain loop never terminates: the
run never finalizes a log, reports nothing, and writes nothing — there is no
`IncompleteCaptureError` path in the code. -/
theorem missing_interactive_never_finalizes (events : List DriverEvent)
    (wr : Option String) (h : countInteractive events = 0) :
    (runSession events).closed = false ∧ mainRun none events wr = none := by
  have hc : (runSession events).closed = false :=
    runSession_closed_inv events initChan rfl h
  refine ⟨hc, ?_⟩
  simp [mainRun, hc]

/-- Witness for C8 at a concrete event sequence with no interactive event. -/
theorem missing_interactive_never_finalizes_witness :
    countInteractive [DriverEvent.requestWillBeSent sampleImgEvent] = 0 ∧
    mainRun none [DriverEvent.requestWillBeSent sampleImgEvent] none = none :=
  ⟨by decide,
   (missing_interactive_never_finalizes
     [DriverEvent.requestWillBeSent sampleImgEvent] none (by decide)).2⟩

/-- Claim C6: when the navigation command returns an error, the run logs the
navigation warning and terminates: the effect trace is exactly that single
log line, containing no file write and no success confirmation. -/
theorem navigation_error_aborts (err : String) (events : List DriverEvent)
    (wr : Option String) :
    mainRun (some err) events wr = some [Effect.log (LogMsg.warnNavigation err)] ∧
    [Effect.log (LogMsg.warnNavigation err)].countP isWriteFile = 0 ∧
    [Effect.log (LogMsg.warnNavigation err)].countP isSuccessLog = 0 := by
  refine ⟨rfl, ?_, ?_⟩ <;> simp [List.countP_cons, isWriteFile, isSuccessLog]

theorem decodePair_encodePair (p : NameValuePair) :
    decodePair (encodePair p) = some p := rfl

theorem decodePage_encodePage (p : HarPage) :
    decodePage (encodePage p) = some p := rfl

theorem decodeCreator_encodeCreator (c : Creator) :
    decodeCreator (encodeCreator c) = some c := rfl

theorem decodeEach_encode {α : Type} (d : Json → Option α) (e : α → Json)
    (h : ∀ x, d (e x) = some x) (xs : List α) :
    decodeEach d (xs.map e) = some xs := by
  induction xs with
  | nil => rfl
  | cons x rest ih => simp [decodeEach, h, ih]

theorem decodeRequest_encodeRequest (r : HarRequest) :
    decodeRequest (encodeRequest r) = some r := by
  simp only [decodeRequest, encodeRequest]
  simp [getField, asStr, decodeArr,
        decodeEach_encode decodePair encodePair decodePair_encodePair]

theorem decodeEntry_encodeEntry (e : HarEntry) :
    decodeEntry (encodeEntry e) = some e := by
  obtain ⟨p, s, r⟩ := e
  cases r with
  | none => rfl
  | some req =>
      show (Option.map some (decodeRequest (encodeRequest req))).bind
          (fun y => some (HarEntry.mk p s y)) = some (HarEntry.mk p s (some req))
      rw [decodeRequest_encodeRequest]
      rfl

/-- Claim C9: encoding a finalized `har.Log` to the HAR 1.2 JSON artifact
format and decoding that JSON recovers the in-memory log exactly — identical
page and entry counts, identical field values, and the same order of pages
and entries. -/
theorem harLog_roundtrip (l : HarLog) :
    decodeHar (encodeHar l) = some l := by
  simp only [decodeHar, encodeHar]
  simp [getField, asStr, decodeArr, decodeCreator_encodeCreator,
        decodeEach_encode decodePage encodePage decodePage_encodePage,
        decodeEach_encode decodeEntry encodeEntry decodeEntry_encodeEntry]
